import Mathlib

/-!
# Verification of the `SimpleVariants` resolver (src/src/core/simple-variants.ts)

Shallow embedding of the variant-resolution system.  JavaScript values that can
appear inside a `VariantConfig` are modelled by the inductive type `StyleValue`:
strings, zero-argument functions (a function is modelled by its observable
behaviour: whether calling it throws, and the string it returns otherwise),
plain objects (finite association lists, first-match lookup), and `null`.
`undefined` is modelled as `Option.none` at the lookup layer.

JavaScript semantics captured by the model:
  * truthiness: `''`, `null`, `undefined` are falsy, everything else truthy;
  * property access `v[k]`: association-list lookup on objects; on strings a
    canonical numeric index yields the one-character string at that position
    (built-in properties such as `length`/`name` and function properties are
    outside the model); on anything else `undefined`;
  * optional chaining `v?.[k]` yields `undefined` for `null`/`undefined` bases;
  * `Map` with `set`/`get`: modelled as an association list where registration
    prepends and lookup takes the first match (last write wins);
  * `String.prototype.split('.')` and `split('.', 2)` are defined character by
    character below, matching the JS behaviour on the relevant inputs;
  * exceptions: the only throwing primitives reachable from the resolver are
    calling a user-supplied variant function and property access on a
    `null`/`undefined` base; an exception-explicit variant of each public
    method (suffix `E`, over `Except Unit`) mirrors the source `try`/`catch`
    structure and is proved to agree with the total model.
-/

/-- A JavaScript value that can occur in a `VariantConfig` tree.
`sfun throws ret` models a zero-argument function: calling it throws when
`throws` is `true` and returns `ret` otherwise. `sobj` models a plain object
as an association list (first-match lookup). -/
inductive StyleValue where
  | sfun (throws : Bool) (ret : String)
  | sstr (s : String)
  | sobj (entries : List (String × StyleValue))
  | snull
deriving Repr

namespace StyleValue

/-- JavaScript truthiness of a defined value: `''` and `null` are falsy,
functions and objects (even empty ones) are truthy. -/
def truthy : StyleValue → Bool
  | sstr s => !(s == "")
  | snull => false
  | _ => true

end StyleValue

/-- Truthiness of a possibly-`undefined` value (`undefined` is falsy). -/
def truthyO : Option StyleValue → Bool
  | none => false
  | some v => v.truthy

/-- Decimal digit value of a character, if it is a digit. -/
def digitVal? (c : Char) : Option Nat :=
  if 48 ≤ c.toNat ∧ c.toNat ≤ 57 then some (c.toNat - 48) else none

/-- Left-to-right decimal accumulation; `none` on any non-digit. -/
def parseDigitsAux : List Char → Nat → Option Nat
  | [], acc => some acc
  | c :: cs, acc =>
    match digitVal? c with
    | some d => parseDigitsAux cs (acc * 10 + d)
    | none => none

/-- A string key that is a canonical numeric index (the form JS uses for
string/array index access): decimal digits, no leading zero except a lone
`'0'`, together with its value. -/
def canonNat? (k : String) : Option Nat :=
  match k.data with
  | [] => none
  | [c] => digitVal? c
  | c :: cs => if c = '0' then none else parseDigitsAux (c :: cs) 0

/-- JS property access on a string: a canonical numeric index within range
yields the one-character string at that position, anything else `undefined`.
(Built-in properties such as `length` are outside the model.) -/
def strCharAt (s : String) (k : String) : Option StyleValue :=
  match canonNat? k with
  | some n =>
    match s.data.get? n with
    | some c => some (.sstr (String.mk [c]))
    | none => none
  | none => none

/-- JS property access `v[k]` on a defined, non-null base value.
Functions are modelled without own properties. -/
def indexSV : StyleValue → String → Option StyleValue
  | .sobj es, k => List.lookup k es
  | .sstr s, k => strCharAt s k
  | _, _ => none

/-- JS optional-chaining access `v?.[k]`: `undefined` for an undefined or
`null` base, otherwise plain property access. -/
def jsIndexO : Option StyleValue → String → Option StyleValue
  | none, _ => none
  | some .snull, _ => none
  | some v, k => indexSV v k

/-- `s.includes('.')`. -/
def includesDot (s : String) : Bool := decide ('.' ∈ s.data)

/-- JS `component.split('.', 2)`: the first two `'.'`-separated segments of
the string (the first segment and the segment between the first and the
second dot, or to the end if there is no second dot). -/
def split2 (s : String) : String × String :=
  (String.mk (s.data.takeWhile (fun c => c ≠ '.')),
   String.mk (((s.data.dropWhile (fun c => c ≠ '.')).tail).takeWhile (fun c => c ≠ '.')))

/-- JS `path.split('.')` at the level of character lists:
`''` splits to `['']`, `'a.b'` to `['a','b']`, etc. -/
def splitDotsL : List Char → List (List Char)
  | [] => [[]]
  | c :: cs =>
    if c = '.' then [] :: splitDotsL cs
    else
      match splitDotsL cs with
      | [] => [[c]]
      | p :: ps => (c :: p) :: ps

/-- JS `path.split('.')` on strings. -/
def splitDots (s : String) : List String :=
  (splitDotsL s.data).map String.mk

/-- JS `parts.join('.')`. -/
def joinDots : List String → String
  | [] => ""
  | [x] => x
  | x :: xs => x ++ "." ++ joinDots xs

/-- JS `parts.join(' ')` (used by `combine`). -/
def spaceJoin : List String → String
  | [] => ""
  | [x] => x
  | x :: xs => x ++ " " ++ spaceJoin xs

/-- JS `a || b` where `a` is a possibly-absent string (`Map.get` result):
the left operand when it is a defined non-empty string, otherwise `b`. -/
def jsOrS (a : Option String) (b : String) : String :=
  match a with
  | some s => if s == "" then b else s
  | none => b

/-- The optional-`variant` parameter of `get`: JS `!variant` is true for
`undefined` and for the empty string. -/
def variantFalsy : Option String → Bool
  | none => true
  | some s => s == ""

/-- The resolver's instance state: the configuration object (`this.variants`)
and the fallback table (`this.fallbacks`, a `Map` modelled as an association
list with first-match lookup; registration prepends, so the last write wins). -/
structure SimpleVariants where
  variants : StyleValue
  fallbacks : List (String × String)
deriving Repr

namespace SimpleVariants

/-- `setupDefaultFallbacks` (lines 112-130): the seven built-in entries. -/
def defaultFallbacks : List (String × String) :=
  [("button.primary", "bg-blue-600 text-white px-4 py-2 rounded"),
   ("button.secondary", "bg-gray-200 text-gray-900 px-4 py-2 rounded"),
   ("button.outline", "border border-gray-300 text-gray-700 px-4 py-2 rounded"),
   ("alert.default", "bg-blue-50 border border-blue-200 text-blue-800 p-4 rounded"),
   ("alert.destructive", "bg-red-50 border border-red-200 text-red-800 p-4 rounded"),
   ("input.default", "border border-gray-300 px-3 py-2 rounded focus:ring-2 focus:ring-blue-500"),
   ("badge.default", "bg-gray-100 text-gray-800 px-2 py-1 rounded text-sm")]

/-- The constructor (lines 99-103) and the factory `createVariants`:
`this.variants = designSystemVariants || ...` replaces a falsy argument with
an empty object, then the default fallbacks are seeded.
`validateConfiguration` only emits diagnostics and has no semantic effect. -/
def createVariants (designSystemVariants : StyleValue) : SimpleVariants :=
  { variants := if designSystemVariants.truthy then designSystemVariants else .sobj [],
    fallbacks := defaultFallbacks }

/-- `getFallback` (lines 395-413):
`this.fallbacks.get(key) || this.fallbacks.get(component + \x27.default\x27) || \x27\x27`.
The diagnostic emitted when nothing is found has no semantic effect. -/
def getFallback (fbs : List (String × String)) (component variant : String) : String :=
  jsOrS (List.lookup (component ++ "." ++ variant) fbs)
    (jsOrS (List.lookup (component ++ ".default") fbs) "")

/-- The body of `get` after the dot-notation branch (lines 165-207):
default the variant, look the component up, resolve function / string /
object-with-default, otherwise fall back.  A thrown variant-function call is
caught (lines 198-207) and also falls back. -/
def getAux (sv : SimpleVariants) (component : String) (variantOpt : Option String) : String :=
  let variant := if variantFalsy variantOpt then "default" else variantOpt.getD ""
  let componentVariants := jsIndexO (some sv.variants) component
  if truthyO componentVariants then
    match jsIndexO componentVariants variant with
    | some (.sfun th r) => if th then getFallback sv.fallbacks component variant else r
    | some (.sstr s) => s
    | some (.sobj es) =>
      match List.lookup "default" es with
      | some (.sfun th r) => if th then getFallback sv.fallbacks component variant else r
      | some (.sstr s) => s
      | _ => getFallback sv.fallbacks component variant
    | _ => getFallback sv.fallbacks component variant
  else getFallback sv.fallbacks component variant

/-- `get` (lines 158-208).  The source's dot-notation branch recurses into
`get` with the first two `'.'`-segments; the recursive call's component is
the first segment, which contains no dot, so that call cannot re-enter the
branch and is embedded as a direct call to the non-branching body `getAux`. -/
def get (sv : SimpleVariants) (component : String) (variant : Option String) : String :=
  if variantFalsy variant && includesDot component then
    getAux sv (split2 component).1 (some (split2 component).2)
  else getAux sv component variant

/-- `sized` (lines 232-253): if `this.variants[component]?.[variant]` is a
truthy object with a truthy entry at `size` that is a function or a string,
resolve that entry (a thrown call is caught and falls back to `get`);
in every other case return `get(component, variant)`. -/
def sized (sv : SimpleVariants) (component variant size : String) : String :=
  let variantObj := jsIndexO (jsIndexO (some sv.variants) component) variant
  match variantObj with
  | some (.sobj es) =>
    match List.lookup size es with
    | some (.sfun th r) => if th then get sv component (some variant) else r
    | some (.sstr s) => if s == "" then get sv component (some variant) else s
    | _ => get sv component (some variant)
  | _ => get sv component (some variant)

/-- The `for (const part of parts)` loop of `nested` (lines 277-282):
`current = current?.[part]`, breaking (and keeping the falsy value) as soon
as `current` is falsy. -/
def walkStop : Option StyleValue → List String → Option StyleValue
  | cur, [] => cur
  | cur, p :: ps =>
    let nxt := jsIndexO cur p
    if truthyO nxt then walkStop nxt ps else nxt

/-- Leaf resolution of `nested` (lines 284-297) with the `catch` of a thrown
function call (lines 298-301) inlined: function → call it (falling back on a
throw); string → return it; truthy object with a function/string `default` →
resolve that; otherwise the fallback for `(fbComponent, fbVariant)`. -/
def leafResolve (sv : SimpleVariants) (cur : Option StyleValue)
    (fbComponent fbVariant : String) : String :=
  match cur with
  | some (.sfun th r) => if th then getFallback sv.fallbacks fbComponent fbVariant else r
  | some (.sstr s) => s
  | some (.sobj es) =>
    match List.lookup "default" es with
    | some (.sfun th r) => if th then getFallback sv.fallbacks fbComponent fbVariant else r
    | some (.sstr s) => s
    | _ => getFallback sv.fallbacks fbComponent fbVariant
  | _ => getFallback sv.fallbacks fbComponent fbVariant

/-- `nested` (lines 274-302): split the path on dots, walk the configuration
with early stop on a falsy value, then resolve the final value as a leaf,
falling back with the first segment as component and the dot-joined rest as
variant. -/
def nested (sv : SimpleVariants) (path : String) : String :=
  let parts := splitDots path
  leafResolve sv (walkStop (some sv.variants) parts) (parts.headD "") (joinDots parts.tail)

/-- Truthiness of the optional string parameters of `when`. -/
def truthyStrO : Option String → Bool
  | none => false
  | some s => !(s == "")

/-- `when` (lines 330-344). -/
def «when» (sv : SimpleVariants) (condition : Bool) (trueComponent trueVariant : String)
    (falseComponent falseVariant : Option String) : String :=
  if condition then get sv trueComponent (some trueVariant)
  else if truthyStrO falseComponent && truthyStrO falseVariant then
    get sv (falseComponent.getD "") (some (falseVariant.getD ""))
  else ""

/-- The per-entry resolution of `combine` (lines 377-382): entries containing
a dot go through `nested`, entries without a dot are kept verbatim. -/
def resolveEntry (sv : SimpleVariants) (v : String) : String :=
  if includesDot v then nested sv v else v

/-- `combine` (lines 375-385): resolve every entry, drop falsy (empty)
results, join with single spaces. -/
def combine (sv : SimpleVariants) (entries : List String) : String :=
  spaceJoin ((entries.map (resolveEntry sv)).filter (fun s => !(s == "")))

/-- `has` (lines 567-574): `!!(componentVariants && componentVariants[variant])`. -/
def has (sv : SimpleVariants) (component variant : String) : Bool :=
  let componentVariants := jsIndexO (some sv.variants) component
  truthyO componentVariants && truthyO (jsIndexO componentVariants variant)

/-- `addFallback` (lines 540-542): `this.fallbacks.set(key, classes)`;
with first-match lookup, prepending realises last-write-wins. -/
def addFallback (sv : SimpleVariants) (key classes : String) : SimpleVariants :=
  { sv with fallbacks := (key, classes) :: sv.fallbacks }

/-! ## Exception-explicit layer

The same methods written over `Except Unit`, with the two throwing
primitives of the source made explicit: calling a user-supplied variant
function (`callFunE`) and plain property access on a `null`/`undefined`
base (`indexE`).  `try { .. } catch { .. }` becomes `tryCatchS`. -/

/-- Calling a zero-argument variant function: throws or returns its string. -/
def callFunE (throws : Bool) (ret : String) : Except Unit String :=
  if throws then .error () else .ok ret

/-- Plain JS property access `base[k]`: throws a `TypeError` when the base is
`undefined` or `null`, otherwise yields the (possibly undefined) property. -/
def indexE (base : Option StyleValue) (k : String) : Except Unit (Option StyleValue) :=
  match base with
  | none => .error ()
  | some .snull => .error ()
  | some v => .ok (indexSV v k)

/-- `try { body } catch { return handler }` where the handler is a
non-throwing expression producing a string. -/
def tryCatchS (body : Except Unit String) (handler : String) : Except Unit String :=
  match body with
  | .ok s => .ok s
  | .error _ => .ok handler

/-- `try { body } catch { return false }` (the shape of `has`). -/
def tryCatchB (body : Except Unit Bool) : Except Unit Bool :=
  match body with
  | .ok b => .ok b
  | .error _ => .ok false

/-- Exception-explicit body of `get` (lines 169-207): the whole resolution,
including the initial `this.variants[component]` access, sits inside the
`try`; the `catch` returns `getFallback`. -/
def getAuxE (sv : SimpleVariants) (component : String) (variantOpt : Option String) :
    Except Unit String :=
  let variant := if variantFalsy variantOpt then "default" else variantOpt.getD ""
  tryCatchS
    (match indexE (some sv.variants) component with
     | .error e => .error e
     | .ok componentVariants =>
       if truthyO componentVariants then
         match jsIndexO componentVariants variant with
         | some (.sfun th r) => callFunE th r
         | some (.sstr s) => .ok s
         | some (.sobj es) =>
           match List.lookup "default" es with
           | some (.sfun th r) => callFunE th r
           | some (.sstr s) => .ok s
           | _ => .ok (getFallback sv.fallbacks component variant)
         | _ => .ok (getFallback sv.fallbacks component variant)
       else .ok (getFallback sv.fallbacks component variant))
    (getFallback sv.fallbacks component variant)

/-- Exception-explicit `get` (lines 158-208); the dot-notation branch is
embedded exactly as in `get`. -/
def getE (sv : SimpleVariants) (component : String) (variant : Option String) :
    Except Unit String :=
  if variantFalsy variant && includesDot component then
    getAuxE sv (split2 component).1 (some (split2 component).2)
  else getAuxE sv component variant

/-- Exception-explicit `sized` (lines 232-253): the initial accesses use
optional chaining / guarded access and cannot throw; the sized entry's
function call can, and the `catch` falls back to `get` (which is total). -/
def sizedE (sv : SimpleVariants) (component variant size : String) : Except Unit String :=
  tryCatchS
    (match indexE (some sv.variants) component with
     | .error e => .error e
     | .ok componentVariants =>
       match jsIndexO componentVariants variant with
       | some (.sobj es) =>
         match List.lookup size es with
         | some (.sfun th r) => callFunE th r
         | some (.sstr s) =>
           if s == "" then .ok (get sv component (some variant)) else .ok s
         | _ => .ok (get sv component (some variant))
       | _ => .ok (get sv component (some variant)))
    (get sv component (some variant))

/-- Exception-explicit leaf resolution of `nested` (lines 284-297). -/
def leafResolveE (sv : SimpleVariants) (cur : Option StyleValue)
    (fbComponent fbVariant : String) : Except Unit String :=
  match cur with
  | some (.sfun th r) => callFunE th r
  | some (.sstr s) => .ok s
  | some (.sobj es) =>
    match List.lookup "default" es with
    | some (.sfun th r) => callFunE th r
    | some (.sstr s) => .ok s
    | _ => .ok (getFallback sv.fallbacks fbComponent fbVariant)
  | _ => .ok (getFallback sv.fallbacks fbComponent fbVariant)

/-- Exception-explicit `nested` (lines 274-302): the walk uses optional
chaining only; a thrown terminal function call is caught, and the `catch`
recomputes the same fallback (lines 299-300). -/
def nestedE (sv : SimpleVariants) (path : String) : Except Unit String :=
  let parts := splitDots path
  tryCatchS
    (leafResolveE sv (walkStop (some sv.variants) parts) (parts.headD "") (joinDots parts.tail))
    (getFallback sv.fallbacks (parts.headD "") (joinDots parts.tail))

/-- Exception-explicit `when` (lines 330-344): no `try`/`catch` of its own,
it simply delegates to `getE`. -/
def whenE (sv : SimpleVariants) (condition : Bool) (trueComponent trueVariant : String)
    (falseComponent falseVariant : Option String) : Except Unit String :=
  if condition then getE sv trueComponent (some trueVariant)
  else if truthyStrO falseComponent && truthyStrO falseVariant then
    getE sv (falseComponent.getD "") (some (falseVariant.getD ""))
  else .ok ""

/-- The `map` callback of `combine` applied left to right over the entries;
the first thrown exception propagates (Array.prototype.map semantics). -/
def resolveListE (sv : SimpleVariants) : List String → Except Unit (List String)
  | [] => .ok []
  | v :: vs =>
    match (if includesDot v then nestedE sv v else .ok v) with
    | .error e => .error e
    | .ok r =>
      match resolveListE sv vs with
      | .error e => .error e
      | .ok rs => .ok (r :: rs)

/-- Exception-explicit `combine` (lines 375-385): no `try`/`catch` of its
own; only the `nested` calls inside the `map` callback could throw. -/
def combineE (sv : SimpleVariants) (entries : List String) : Except Unit String :=
  match resolveListE sv entries with
  | .error e => .error e
  | .ok rs => .ok (spaceJoin (rs.filter (fun s => !(s == ""))))

/-- Exception-explicit `has` (lines 567-574): the plain access
`this.variants[component]` sits inside the `try`; the `catch` returns
`false`; the second access is short-circuit guarded by truthiness. -/
def hasE (sv : SimpleVariants) (component variant : String) : Except Unit Bool :=
  tryCatchB
    (match indexE (some sv.variants) component with
     | .error e => .error e
     | .ok componentVariants =>
       .ok (truthyO componentVariants && truthyO (jsIndexO componentVariants variant)))

end SimpleVariants

/-! ## Concrete resolver instances used as test vehicles -/

open SimpleVariants in
/-- Configuration `{ a: { b: 'X', 'b.c': 'Y' } }`: distinguishes splitting
`'a.b.c'` into two segments from splitting it into head and remainder. -/
def svDot : SimpleVariants :=
  createVariants (.sobj [("a", .sobj [("b", .sstr "X"), ("b.c", .sstr "Y")])])

open SimpleVariants in
/-- Configuration `{ 'a.b': { default: 'X' }, a: { b: 'Y' } }`: a component name
that itself contains a dot. -/
def svDotName : SimpleVariants :=
  createVariants (.sobj [("a.b", .sobj [("default", .sstr "X")]),
                         ("a", .sobj [("b", .sstr "Y")])])

open SimpleVariants in
/-- An empty configuration with fallbacks `c.default ↦ 'D'` and then `c.v ↦ ''`
registered on top of the defaults. -/
def svEmptyFb : SimpleVariants :=
  addFallback (addFallback (createVariants (.sobj [])) "c.default" "D") "c.v" ""

open SimpleVariants in
/-- Configuration `{ a: '' }` with fallback `a.b.c ↦ 'F'` registered: the walk
of `nested('a.b.c')` stops on the empty string at `a`. -/
def svEmptyStr : SimpleVariants :=
  addFallback (createVariants (.sobj [("a", .sstr "")])) "a.b.c" "F"

open SimpleVariants in
/-- Configuration `{ x: { y: 'a a' } }`: the resolution of `'x.y'` is a
two-token class string. -/
def svTwoTok : SimpleVariants :=
  createVariants (.sobj [("x", .sobj [("y", .sstr "a a")])])

open SimpleVariants in
/-- Configuration `{ button: { primary: () => 'bg-blue-600 text-white' } }`
(the spec's concrete scenario: a plain function variant). -/
def svButton : SimpleVariants :=
  createVariants (.sobj [("button", .sobj [("primary", .sfun false "bg-blue-600 text-white")])])

/-! ## General lemmas -/

namespace SimpleVariants

theorem tryCatchS_callFunE (th : Bool) (r h : String) :
    tryCatchS (callFunE th r) h = .ok (if th then h else r) := by
  cases th <;> rfl

theorem getAuxE_ok (sv : SimpleVariants) (c : String) (v : Option String) :
    getAuxE sv c v = .ok (getAux sv c v) := by
  unfold getAuxE getAux
  cases hv : sv.variants with
  | snull => rfl
  | sfun th r =>
    simp only [indexE, jsIndexO, indexSV]
    rfl
  | sstr s =>
    simp only [indexE, jsIndexO]
    split
    · split
      · exact tryCatchS_callFunE ..
      · rfl
      · split
        · exact tryCatchS_callFunE ..
        · rfl
        · rfl
      · rfl
    · rfl
  | sobj es =>
    simp only [indexE, jsIndexO]
    split
    · split
      · exact tryCatchS_callFunE ..
      · rfl
      · split
        · exact tryCatchS_callFunE ..
        · rfl
        · rfl
      · rfl
    · rfl

end SimpleVariants

namespace SimpleVariants

theorem getE_ok (sv : SimpleVariants) (c : String) (v : Option String) :
    getE sv c v = .ok (get sv c v) := by
  unfold getE get
  split
  · exact getAuxE_ok ..
  · exact getAuxE_ok ..

theorem sizedE_ok (sv : SimpleVariants) (c v s : String) :
    sizedE sv c v s = .ok (sized sv c v s) := by
  unfold sizedE sized
  cases hv : sv.variants with
  | snull => rfl
  | sfun th r => rfl
  | sstr str =>
    simp only [indexE, jsIndexO]
    split
    · split
      · exact tryCatchS_callFunE ..
      · split <;> rfl
      · rfl
    · rfl
  | sobj es =>
    simp only [indexE, jsIndexO]
    split
    · split
      · exact tryCatchS_callFunE ..
      · split <;> rfl
      · rfl
    · rfl

theorem leafResolveE_ok (sv : SimpleVariants) (cur : Option StyleValue) (fc fv : String) :
    tryCatchS (leafResolveE sv cur fc fv) (getFallback sv.fallbacks fc fv)
      = .ok (leafResolve sv cur fc fv) := by
  unfold leafResolveE leafResolve
  split
  · exact tryCatchS_callFunE ..
  · rfl
  · split
    · exact tryCatchS_callFunE ..
    · rfl
    · rfl
  · rfl

theorem nestedE_ok (sv : SimpleVariants) (p : String) :
    nestedE sv p = .ok (nested sv p) := by
  unfold nestedE nested
  exact leafResolveE_ok ..

theorem whenE_ok (sv : SimpleVariants) (cond : Bool) (tc tv : String)
    (fc fv : Option String) :
    whenE sv cond tc tv fc fv = .ok («when» sv cond tc tv fc fv) := by
  unfold whenE «when»
  split
  · exact getE_ok ..
  · split
    · exact getE_ok ..
    · rfl

theorem resolveListE_ok (sv : SimpleVariants) (vs : List String) :
    resolveListE sv vs = .ok (vs.map (resolveEntry sv)) := by
  induction vs with
  | nil => rfl
  | cons v vs ih =>
    cases hdot : includesDot v
    · simp [resolveListE, resolveEntry, hdot, ih]
    · simp [resolveListE, resolveEntry, hdot, ih, nestedE_ok]

theorem combineE_ok (sv : SimpleVariants) (vs : List String) :
    combineE sv vs = .ok (combine sv vs) := by
  unfold combineE combine
  rw [resolveListE_ok]

theorem hasE_ok (sv : SimpleVariants) (c v : String) :
    hasE sv c v = .ok (has sv c v) := by
  unfold hasE has
  cases hv : sv.variants <;> rfl

theorem createVariants_not_null (input : StyleValue) :
    (createVariants input).variants ≠ .snull := by
  intro h
  unfold createVariants at h
  by_cases htr : input.truthy
  · rw [if_pos htr] at h
    subst h
    simp [StyleValue.truthy] at htr
  · rw [if_neg htr] at h
    cases h

end SimpleVariants

/-! split lemmas -/

/-- No element of `takeWhile (decide <| · ≠ c)` is `c`. -/
theorem not_mem_takeWhile_ne (l : List Char) (c : Char) :
    c ∉ l.takeWhile (fun d => decide (d ≠ c)) := by
  intro h
  have := List.mem_takeWhile_imp h
  simp at this

theorem takeWhile_ne_append (l r : List Char) (c : Char) (hl : c ∉ l) :
    (l ++ c :: r).takeWhile (fun d => decide (d ≠ c)) = l := by
  induction l with
  | nil => rw [List.nil_append, List.takeWhile_cons, if_neg (by simp)]
  | cons a l ih =>
    have ha : a ≠ c := fun h => hl (h ▸ List.mem_cons_self a l)
    have hl2 : c ∉ l := fun h => hl (List.mem_cons_of_mem a h)
    rw [List.cons_append, List.takeWhile_cons, if_pos (by simp [ha]), ih hl2]

theorem dropWhile_ne_append (l r : List Char) (c : Char) (hl : c ∉ l) :
    (l ++ c :: r).dropWhile (fun d => decide (d ≠ c)) = c :: r := by
  induction l with
  | nil => rw [List.nil_append, List.dropWhile_cons, if_neg (by simp)]
  | cons a l ih =>
    have ha : a ≠ c := fun h => hl (h ▸ List.mem_cons_self a l)
    have hl2 : c ∉ l := fun h => hl (List.mem_cons_of_mem a h)
    rw [List.cons_append, List.dropWhile_cons, if_pos (by simp [ha]), ih hl2]

theorem takeWhile_ne_of_not_mem (l : List Char) (c : Char) (hl : c ∉ l) :
    l.takeWhile (fun d => decide (d ≠ c)) = l := by
  induction l with
  | nil => rfl
  | cons a l ih =>
    have ha : a ≠ c := fun h => hl (h ▸ List.mem_cons_self a l)
    have hl2 : c ∉ l := fun h => hl (List.mem_cons_of_mem a h)
    rw [List.takeWhile_cons, if_pos (by simp [ha]), ih hl2]

theorem not_dot_of_includesDot_false {s : String} (h : includesDot s = false) :
    '.' ∉ s.data := by
  simpa [includesDot] using h

theorem includesDot_mk_false (l : List Char) (hl : '.' ∉ l) :
    includesDot (String.mk l) = false := by
  simp [includesDot]
  exact hl

/-- The first component of `split2` never contains a dot. -/
theorem includesDot_split2_fst (s : String) : includesDot (split2 s).1 = false :=
  includesDot_mk_false _ (not_mem_takeWhile_ne s.data '.')

/-- `split2` on `a ++ "." ++ b` with dot-free segments gives `(a, b)`. -/
theorem split2_one_dot (a b : String) (ha : includesDot a = false)
    (hb : includesDot b = false) : split2 (a ++ "." ++ b) = (a, b) := by
  have ha2 : '.' ∉ a.data := not_dot_of_includesDot_false ha
  have hb2 : '.' ∉ b.data := not_dot_of_includesDot_false hb
  have hdata : (a ++ "." ++ b).data = a.data ++ '.' :: b.data := by
    simp [String.data_append]
  rw [split2, hdata, takeWhile_ne_append _ _ _ ha2, dropWhile_ne_append _ _ _ ha2]
  rw [List.tail_cons, takeWhile_ne_of_not_mem _ _ hb2]

theorem splitDotsL_no_dot (l : List Char) (hl : '.' ∉ l) :
    splitDotsL l = [l] := by
  induction l with
  | nil => rfl
  | cons a l ih =>
    have ha : a ≠ '.' := fun h => hl (h ▸ List.mem_cons_self a l)
    have hl2 : '.' ∉ l := fun h => hl (List.mem_cons_of_mem a h)
    rw [splitDotsL, if_neg ha, ih hl2]

theorem splitDotsL_append (l r : List Char) (hl : '.' ∉ l) :
    splitDotsL (l ++ '.' :: r) = l :: splitDotsL r := by
  induction l with
  | nil => rw [List.nil_append, splitDotsL, if_pos rfl]
  | cons a l ih =>
    have ha : a ≠ '.' := fun h => hl (h ▸ List.mem_cons_self a l)
    have hl2 : '.' ∉ l := fun h => hl (List.mem_cons_of_mem a h)
    rw [List.cons_append, splitDotsL, if_neg ha, ih hl2]

/-- Splitting `a ++ "." ++ b ++ "." ++ c` on dots, with dot-free segments,
gives exactly the three segments. -/
theorem splitDots_three (a b c : String) (ha : includesDot a = false)
    (hb : includesDot b = false) (hc : includesDot c = false) :
    splitDots (a ++ "." ++ b ++ "." ++ c) = [a, b, c] := by
  have ha2 : '.' ∉ a.data := not_dot_of_includesDot_false ha
  have hb2 : '.' ∉ b.data := not_dot_of_includesDot_false hb
  have hc2 : '.' ∉ c.data := not_dot_of_includesDot_false hc
  have hdata : (a ++ "." ++ b ++ "." ++ c).data
      = a.data ++ '.' :: (b.data ++ '.' :: c.data) := by
    simp [String.data_append]
  rw [splitDots, hdata, splitDotsL_append _ _ ha2, splitDotsL_append _ _ hb2,
    splitDotsL_no_dot _ hc2]
  rfl

/-- Cutting at a separator character absent from both prefixes is injective. -/
theorem sep_append_inj (sep : Char) : ∀ (l1 l2 r1 r2 : List Char), sep ∉ l1 → sep ∉ l2 →
    l1 ++ sep :: r1 = l2 ++ sep :: r2 → l1 = l2 := by
  intro l1
  induction l1 with
  | nil =>
    intro l2 r1 r2 _ h2 heq
    cases l2 with
    | nil => rfl
    | cons b l2 =>
      rw [List.nil_append, List.cons_append] at heq
      have hb : sep = b := (List.cons.injEq ..).mp heq |>.1
      exact absurd (hb ▸ List.mem_cons_self b l2) h2
  | cons a l1 ih =>
    intro l2 r1 r2 h1 h2 heq
    cases l2 with
    | nil =>
      rw [List.cons_append, List.nil_append] at heq
      have hb : a = sep := (List.cons.injEq ..).mp heq |>.1
      exact absurd (hb ▸ List.mem_cons_self a l1) h1
    | cons b l2 =>
      rw [List.cons_append, List.cons_append] at heq
      have hab := (List.cons.injEq ..).mp heq
      have h1t : sep ∉ l1 := fun h => h1 (List.mem_cons_of_mem a h)
      have h2t : sep ∉ l2 := fun h => h2 (List.mem_cons_of_mem b h)
      rw [hab.1, ih l2 r1 r2 h1t h2t hab.2]

/-- Two space-free, distinct, non-empty strings joined by a space in the two
orders give different results. -/
theorem space_join_order (r1 r2 : String) (h1 : ' ' ∉ r1.data) (h2 : ' ' ∉ r2.data)
    (hne : r1 ≠ r2) : r1 ++ " " ++ r2 ≠ r2 ++ " " ++ r1 := by
  intro h
  apply hne
  have hd : r1.data ++ ' ' :: r2.data = r2.data ++ ' ' :: r1.data := by
    have := congrArg String.data h
    simpa [String.data_append] using this
  have := sep_append_inj ' ' r1.data r2.data r2.data r1.data h1 h2 hd
  exact String.ext this

namespace SimpleVariants

theorem jsOrS_none (b : String) : jsOrS none b = b := rfl

theorem jsOrS_some_empty (b : String) : jsOrS (some "") b = b := rfl

theorem jsOrS_some_ne (s b : String) (hs : s ≠ "") : jsOrS (some s) b = s := by
  show (if (s == "") = true then b else s) = s
  rw [if_neg (by simpa using hs)]

/-- `x || ''` on a possibly-absent string equals `getD ''`. -/
theorem jsOrS_getD (o : Option String) : jsOrS o "" = o.getD "" := by
  cases o with
  | none => rfl
  | some t =>
    by_cases ht : t = ""
    · subst ht
      rfl
    · rw [jsOrS_some_ne t "" ht]
      rfl

/-- `getFallback` yields the empty string or a value stored in the table. -/
theorem getFallback_registered (fbs : List (String × String)) (c v : String) :
    getFallback fbs c v = "" ∨ ∃ k, List.lookup k fbs = some (getFallback fbs c v) := by
  unfold getFallback
  cases h1 : List.lookup (c ++ "." ++ v) fbs with
  | some s =>
    by_cases hs : s = ""
    · subst hs
      rw [jsOrS_some_empty]
      cases h2 : List.lookup (c ++ ".default") fbs with
      | some t =>
        by_cases ht : t = ""
        · subst ht
          exact Or.inl rfl
        · rw [jsOrS_some_ne t "" ht]
          exact Or.inr ⟨c ++ ".default", h2⟩
      | none => exact Or.inl rfl
    · rw [jsOrS_some_ne s _ hs]
      exact Or.inr ⟨c ++ "." ++ v, h1⟩
  | none =>
    rw [jsOrS_none]
    cases h2 : List.lookup (c ++ ".default") fbs with
    | some t =>
      by_cases ht : t = ""
      · subst ht
        exact Or.inl rfl
      · rw [jsOrS_some_ne t "" ht]
        exact Or.inr ⟨c ++ ".default", h2⟩
    | none => exact Or.inl rfl

/-- With a supplied non-empty variant and the `(component, variant)` entry
absent from the configuration, `get` resolves through `getFallback`. -/
theorem get_entry_absent (sv : SimpleVariants) (c v : String) (hv : v ≠ "")
    (h : jsIndexO (jsIndexO (some sv.variants) c) v = none) :
    get sv c (some v) = getFallback sv.fallbacks c v := by
  have hfal : variantFalsy (some v) = false := by simp [variantFalsy, hv]
  unfold get
  rw [hfal, Bool.false_and, if_neg Bool.false_ne_true]
  unfold getAux
  rw [hfal]
  cases htr : truthyO (jsIndexO (some sv.variants) c) with
  | false => simp [htr]
  | true => simp [htr, h]

/-- With the component itself absent from the configuration, `get` resolves
through `getFallback`. -/
theorem get_component_absent (sv : SimpleVariants) (c v : String) (hv : v ≠ "")
    (h : jsIndexO (some sv.variants) c = none) :
    get sv c (some v) = getFallback sv.fallbacks c v := by
  apply get_entry_absent sv c v hv
  rw [h]
  rfl

end SimpleVariants

/-! ## Claim theorems -/

namespace SimpleVariants

/-- C1, counterexample: on the two-dot component `'a.b.c'` with configuration
`svDot`, `get('a.b.c')` returns the value of `a.b` (the source splits with
limit 2), not the value of `a['b.c']` that the claim's head-and-remainder
reading predicts. -/
theorem C1_counterexample :
    get svDot "a.b.c" none = "X" ∧ get svDot "a" (some "b.c") = "Y"
      ∧ ("X" : String) ≠ "Y" :=
  ⟨rfl, rfl, by decide⟩

/-- C1 (amended): with no variant supplied and a dot in the component, `get`
recurses on the first two dot-separated segments — the remainder after the
second segment is discarded; in particular for one-dot strings
`get('a.b') = get('a','b')`. -/
theorem C1_get_dot_split (sv : SimpleVariants) :
    (∀ component, includesDot component = true →
      get sv component none = get sv (split2 component).1 (some (split2 component).2))
    ∧ (∀ a b, includesDot a = false → includesDot b = false →
      get sv (a ++ "." ++ b) none = get sv a (some b)) := by
  constructor
  · intro component h
    have L : get sv component none
        = getAux sv (split2 component).1 (some (split2 component).2) := by
      unfold get
      rw [if_pos (by simp [variantFalsy, h])]
    have R : get sv (split2 component).1 (some (split2 component).2)
        = getAux sv (split2 component).1 (some (split2 component).2) := by
      unfold get
      rw [if_neg (by simp [includesDot_split2_fst])]
    rw [L, R]
  · intro a b ha hb
    have hdot : includesDot (a ++ "." ++ b) = true := by
      simp [includesDot, String.data_append]
    have L : get sv (a ++ "." ++ b) none = getAux sv a (some b) := by
      unfold get
      rw [if_pos (by simp [variantFalsy, hdot]), split2_one_dot a b ha hb]
    have R : get sv a (some b) = getAux sv a (some b) := by
      unfold get
      rw [if_neg (by simp [ha])]
    rw [L, R]

/-- C1 witness: the amended dot-splitting law evaluated on `svDot` at the
concrete component `'a.b.c'`. -/
theorem C1_witness :
    get svDot "a.b.c" none = get svDot (split2 "a.b.c").1 (some (split2 "a.b.c").2) :=
  (C1_get_dot_split svDot).1 "a.b.c" rfl

/-- C5, counterexample: for the dotted component name `'a.b'` whose `default`
variant is defined as the string `'X'`, `get('a.b','default')` returns that
string while `get('a.b')` splits on the dot and returns `a.b`'s value `'Y'`. -/
theorem C5_counterexample :
    jsIndexO (jsIndexO (some svDotName.variants) "a.b") "default"
        = some (.sstr "X")
      ∧ get svDotName "a.b" (some "default") = "X"
      ∧ get svDotName "a.b" none = "Y"
      ∧ ("X" : String) ≠ "Y" :=
  ⟨rfl, rfl, rfl, by decide⟩

/-- C5 (amended): for every configuration and every component name that
contains no dot, `get(component, 'default')` equals `get(component)` with the
variant omitted. -/
theorem C5_get_default (sv : SimpleVariants) (component : String)
    (h : includesDot component = false) :
    get sv component (some "default") = get sv component none := by
  have L : get sv component (some "default") = getAux sv component (some "default") := by
    unfold get
    rw [if_neg (by simp [variantFalsy])]
  have R : get sv component none = getAux sv component none := by
    unfold get
    rw [if_neg (by simp [h])]
  have M : getAux sv component (some "default") = getAux sv component none := by
    unfold getAux
    rfl
  rw [L, M, R]

/-- C5 witness: the amended law on `svButton` at component `'button'`. -/
theorem C5_witness :
    get svButton "button" (some "default") = get svButton "button" none :=
  C5_get_default svButton "button" rfl

/-- C4: `when(condition, tc, tv, fc, fv)` equals `get(tc, tv)` when the
condition is true; when false it equals `get(fc, fv)` when both false-branch
arguments are supplied and non-empty, and the empty string otherwise
(a supplied empty string counts as not supplied). -/
theorem C4_when (sv : SimpleVariants) (cond : Bool) (tc tv : String)
    (fc fv : Option String) :
    (cond = true → «when» sv cond tc tv fc fv = get sv tc (some tv))
    ∧ (cond = false → (∀ f, fc = some f → f ≠ "") → fc ≠ none →
        (∀ g, fv = some g → g ≠ "") → fv ≠ none →
        «when» sv cond tc tv fc fv = get sv (fc.getD "") (some (fv.getD "")))
    ∧ (cond = false → (fc = none ∨ fc = some "" ∨ fv = none ∨ fv = some "") →
        «when» sv cond tc tv fc fv = "") := by
  refine ⟨fun hc => ?_, fun hc hf hfn hg hgn => ?_, fun hc habs => ?_⟩
  · subst hc
    rfl
  · subst hc
    have h1 : truthyStrO fc = true := by
      cases fc with
      | none => exact absurd rfl hfn
      | some f => simpa [truthyStrO] using hf f rfl
    have h2 : truthyStrO fv = true := by
      cases fv with
      | none => exact absurd rfl hgn
      | some g => simpa [truthyStrO] using hg g rfl
    unfold «when»
    rw [if_neg (by simp), if_pos (by simp [h1, h2])]
  · subst hc
    have h0 : (truthyStrO fc && truthyStrO fv) = false := by
      rcases habs with h | h | h | h <;> subst h <;>
        simp [truthyStrO]
    unfold «when»
    rw [if_neg (by simp), if_neg (by simp [h0])]

/-- C4 witness: all three branches evaluated concretely on `svButton`. -/
theorem C4_witness :
    «when» svButton true "button" "primary" (some "button") (some "secondary")
        = get svButton "button" (some "primary")
      ∧ «when» svButton false "button" "primary" (some "button") (some "secondary")
        = get svButton "button" (some "secondary")
      ∧ «when» svButton false "button" "primary" none none = "" :=
  ⟨(C4_when svButton true "button" "primary" (some "button") (some "secondary")).1 rfl,
   (C4_when svButton false "button" "primary" (some "button") (some "secondary")).2.1 rfl
     (by intro f hf; cases hf; decide) (by simp)
     (by intro g hg; cases hg; decide) (by simp),
   (C4_when svButton false "button" "primary" none none).2.2 rfl (Or.inl rfl)⟩

/-- C8: when the configuration value at `component.variant` is not an object,
or is an object without an entry for the requested size key, `sized` returns
exactly `get(component, variant)`. -/
theorem C8_sized_fallback (sv : SimpleVariants) (c v s : String)
    (h : match jsIndexO (jsIndexO (some sv.variants) c) v with
         | some (.sobj es) => List.lookup s es = none
         | _ => True) :
    sized sv c v s = get sv c (some v) := by
  unfold sized
  cases hobj : jsIndexO (jsIndexO (some sv.variants) c) v with
  | none => rfl
  | some val =>
    cases val with
    | sobj es =>
      rw [hobj] at h
      simp [h]
    | sfun th r => rfl
    | sstr str => rfl
    | snull => rfl

/-- C8 witness: on `svButton`, whose `button.primary` is a plain function,
`sized('button','primary','sm')` equals `get('button','primary')`. -/
theorem C8_witness :
    sized svButton "button" "primary" "sm" = get svButton "button" (some "primary")
      ∧ get svButton "button" (some "primary") = "bg-blue-600 text-white" :=
  ⟨C8_sized_fallback svButton "button" "primary" "sm" (by trivial), rfl⟩

/-- C9: `has(component, variant)` is true exactly when the component resolves
to a truthy value and the variant key on it resolves to a truthy value; and
whenever the configuration entry and both matching fallback keys are entirely
absent, `get` returns the empty string and `has` returns false. -/
theorem C9_has (sv : SimpleVariants) (c v : String) :
    (has sv c v = true ↔
      truthyO (jsIndexO (some sv.variants) c) = true
        ∧ truthyO (jsIndexO (jsIndexO (some sv.variants) c) v) = true)
    ∧ (v ≠ "" → jsIndexO (jsIndexO (some sv.variants) c) v = none →
        List.lookup (c ++ "." ++ v) sv.fallbacks = none →
        List.lookup (c ++ ".default") sv.fallbacks = none →
        get sv c (some v) = "" ∧ has sv c v = false) := by
  constructor
  · show (truthyO (jsIndexO (some sv.variants) c)
        && truthyO (jsIndexO (jsIndexO (some sv.variants) c) v)) = true ↔ _
    rw [Bool.and_eq_true]
  · intro hv habs hf1 hf2
    have hfb : getFallback sv.fallbacks c v = "" := by
      unfold getFallback
      rw [hf1, hf2, jsOrS_none, jsOrS_none]
    refine ⟨(get_entry_absent sv c v hv habs).trans hfb, ?_⟩
    show (truthyO (jsIndexO (some sv.variants) c)
        && truthyO (jsIndexO (jsIndexO (some sv.variants) c) v)) = false
    rw [habs]
    simp [truthyO]

/-- C9 witness: on `svButton`, `has('button','missing')` is false and
`get('button','missing')` is empty (no configuration entry, no fallback). -/
theorem C9_witness :
    get svButton "button" (some "missing") = "" ∧ has svButton "button" "missing" = false :=
  (C9_has svButton "button" "missing").2 (by decide) rfl rfl rfl

/-- C10: registering an empty-string fallback for `c.v` stores the entry
(last write wins) but lookup-time resolution skips it: the resolution for
`(c, v)` afterwards equals the table's `c.default` entry when present and the
empty string otherwise. -/
theorem C10_empty_fallback_skipped (sv : SimpleVariants) (c v : String) :
    getFallback (addFallback sv (c ++ "." ++ v) "").fallbacks c v
        = (List.lookup (c ++ ".default") (addFallback sv (c ++ "." ++ v) "").fallbacks).getD ""
      ∧ List.lookup (c ++ "." ++ v) (addFallback sv (c ++ "." ++ v) "").fallbacks
        = some "" := by
  have hlk : List.lookup (c ++ "." ++ v) (addFallback sv (c ++ "." ++ v) "").fallbacks
      = some "" := by
    unfold addFallback
    simp [List.lookup]
  refine ⟨?_, hlk⟩
  unfold getFallback
  rw [hlk, jsOrS_some_empty, jsOrS_getD]


/-- C3, counterexample: with `c.default ↦ 'D'` registered and then `c.v ↦ ''`
registered (so the key `c.v` is present in the table), internal fallback
resolution for `(c, v)` returns `'D'`, not the stored entry `''` the claim's
reading predicts. -/
theorem C3_counterexample :
    List.lookup "c.v" svEmptyFb.fallbacks = some ""
      ∧ getFallback svEmptyFb.fallbacks "c" "v" = "D"
      ∧ ("D" : String) ≠ "" :=
  ⟨rfl, rfl, by decide⟩

/-- C3 (amended): fallback resolution returns the table entry for
`'<c>.<v>'` when present and non-empty, otherwise the entry for
`'<c>.default'` when present and non-empty, otherwise the empty string; and
after `addFallback('comp.var', classes)` with non-empty `classes`, a call
`get('comp','var')` (non-empty `var`) on a configuration where `comp.var` is
absent returns exactly `classes`. -/
theorem C3_fallback_resolution :
    (∀ (fbs : List (String × String)) (c v s : String),
      List.lookup (c ++ "." ++ v) fbs = some s → s ≠ "" → getFallback fbs c v = s)
    ∧ (∀ (fbs : List (String × String)) (c v t : String),
      (List.lookup (c ++ "." ++ v) fbs = none ∨ List.lookup (c ++ "." ++ v) fbs = some "") →
      List.lookup (c ++ ".default") fbs = some t → t ≠ "" → getFallback fbs c v = t)
    ∧ (∀ (fbs : List (String × String)) (c v : String),
      (List.lookup (c ++ "." ++ v) fbs = none ∨ List.lookup (c ++ "." ++ v) fbs = some "") →
      (List.lookup (c ++ ".default") fbs = none ∨ List.lookup (c ++ ".default") fbs = some "") →
      getFallback fbs c v = "")
    ∧ (∀ (sv : SimpleVariants) (comp var classes : String), var ≠ "" → classes ≠ "" →
      jsIndexO (jsIndexO (some sv.variants) comp) var = none →
      get (addFallback sv (comp ++ "." ++ var) classes) comp (some var) = classes) := by
  refine ⟨fun fbs c v s h1 hs => ?_, fun fbs c v t h1 h2 ht => ?_,
    fun fbs c v h1 h2 => ?_, fun sv comp var classes hvar hcl habs => ?_⟩
  · unfold getFallback
    rw [h1, jsOrS_some_ne s _ hs]
  · unfold getFallback
    rcases h1 with h1 | h1 <;>
      rw [h1, h2, jsOrS_some_ne t "" ht] <;> rfl
  · unfold getFallback
    rcases h1 with h1 | h1 <;> rcases h2 with h2 | h2 <;> rw [h1, h2] <;> rfl
  · have habs2 : jsIndexO (jsIndexO
        (some (addFallback sv (comp ++ "." ++ var) classes).variants) comp) var = none := habs
    rw [get_entry_absent _ comp var hvar habs2]
    unfold getFallback addFallback
    have hlk : List.lookup (comp ++ "." ++ var)
        ((comp ++ "." ++ var, classes) :: sv.fallbacks) = some classes := by
      simp [List.lookup]
    rw [hlk, jsOrS_some_ne classes _ hcl]

/-- C3 witness: the amended resolution evaluated concretely: the registered
non-empty entry wins, and the `addFallback`-then-`get` scenario returns the
registered classes on `svButton` (where `button.missing` is absent). -/
theorem C3_witness :
    get (addFallback svButton ("button" ++ "." ++ "missing") "bg-gray-200")
        "button" (some "missing") = "bg-gray-200" :=
  C3_fallback_resolution.2.2.2 svButton "button" "missing" "bg-gray-200"
    (by decide) (by decide) rfl

/-- C2: every public operation is total.  Construction normalises a falsy
configuration to an empty object (so the instance's configuration is never
`null`); each exception-explicit public method returns `Except.ok` of its
total model on every input — no exception escapes to the caller — and on a
missing component `get` degrades to `getFallback`, whose result is always
either a registered table entry or the empty string. -/
theorem C2_total (sv : SimpleVariants) :
    (∀ input, (createVariants input).variants ≠ .snull)
    ∧ (∀ c v, getE sv c v = .ok (get sv c v))
    ∧ (∀ c v s, sizedE sv c v s = .ok (sized sv c v s))
    ∧ (∀ p, nestedE sv p = .ok (nested sv p))
    ∧ (∀ cond tc tv fc fv, whenE sv cond tc tv fc fv = .ok («when» sv cond tc tv fc fv))
    ∧ (∀ entries, combineE sv entries = .ok (combine sv entries))
    ∧ (∀ c v, hasE sv c v = .ok (has sv c v))
    ∧ (∀ key classes, (addFallback sv key classes).fallbacks
        = (key, classes) :: sv.fallbacks)
    ∧ (∀ c v, v ≠ "" → jsIndexO (some sv.variants) c = none →
        get sv c (some v) = getFallback sv.fallbacks c v)
    ∧ (∀ c v, getFallback sv.fallbacks c v = ""
        ∨ ∃ k, List.lookup k sv.fallbacks = some (getFallback sv.fallbacks c v)) :=
  ⟨createVariants_not_null,
   fun c v => getE_ok sv c v,
   fun c v s => sizedE_ok sv c v s,
   fun p => nestedE_ok sv p,
   fun cond tc tv fc fv => whenE_ok sv cond tc tv fc fv,
   fun entries => combineE_ok sv entries,
   fun c v => hasE_ok sv c v,
   fun _ _ => rfl,
   fun c v hv h => get_component_absent sv c v hv h,
   fun c v => getFallback_registered sv.fallbacks c v⟩

/-- C2 witness: the degradation clause evaluated concretely: on `svButton`
the unknown component `'zz'` resolves through the fallback table. -/
theorem C2_witness :
    get svButton "zz" (some "x") = getFallback svButton.fallbacks "zz" "x"
      ∧ get svButton "zz" (some "x") = "" :=
  ⟨(C2_total svButton).2.2.2.2.2.2.2.2.1 "zz" "x" (by decide) rfl, rfl⟩

/-- C6, counterexample: with configuration `\x7b a: '' \x7d` and a registered
fallback `a.b.c ↦ 'F'`, the intermediate key `b` is absent (the walk's value
at `a` is the empty string), yet `nested('a.b.c')` returns `''` — the
post-loop `typeof current === 'string'` check fires on the falsy empty
string — instead of the fallback `'F'` for `('a','b.c')` the claim predicts. -/
theorem C6_counterexample :
    jsIndexO (jsIndexO (some svEmptyStr.variants) "a") "b" = none
      ∧ nested svEmptyStr "a.b.c" = ""
      ∧ getFallback svEmptyStr.fallbacks "a" "b.c" = "F"
      ∧ ("" : String) ≠ "F" :=
  ⟨rfl, rfl, rfl, by decide⟩

/-- C6 (amended): for dot-free segments, `nested('a.b.c')` equals walking
the configuration left to right through `a`, `b`, `c` (stopping at the first
falsy value) and resolving the stop value as a leaf; and when the
intermediate key `b` is absent — unless the walk stopped on the empty string
at `a` — the result is the fallback for `('a', 'b.c')`. -/
theorem C6_nested_walk (sv : SimpleVariants) (a b c : String)
    (ha : includesDot a = false) (hb : includesDot b = false)
    (hc : includesDot c = false) :
    nested sv (a ++ "." ++ b ++ "." ++ c)
        = leafResolve sv (walkStop (some sv.variants) [a, b, c]) a (b ++ "." ++ c)
    ∧ (jsIndexO (jsIndexO (some sv.variants) a) b = none →
       jsIndexO (some sv.variants) a ≠ some (.sstr "") →
       nested sv (a ++ "." ++ b ++ "." ++ c) = getFallback sv.fallbacks a (b ++ "." ++ c)) := by
  have hsplit : splitDots (a ++ "." ++ b ++ "." ++ c) = [a, b, c] :=
    splitDots_three a b c ha hb hc
  have part1 : nested sv (a ++ "." ++ b ++ "." ++ c)
      = leafResolve sv (walkStop (some sv.variants) [a, b, c]) a (b ++ "." ++ c) := by
    unfold nested
    rw [hsplit]
    rfl
  refine ⟨part1, fun habs hne => ?_⟩
  rw [part1]
  cases hA : jsIndexO (some sv.variants) a with
  | none => simp [walkStop, hA, truthyO, leafResolve]
  | some val =>
    rw [hA] at habs
    cases val with
    | snull => simp [walkStop, hA, truthyO, StyleValue.truthy, leafResolve]
    | sfun th r => simp [walkStop, hA, truthyO, StyleValue.truthy, habs, leafResolve]
    | sobj es => simp [walkStop, hA, truthyO, StyleValue.truthy, habs, leafResolve]
    | sstr s =>
      have hs : s ≠ "" := by
        intro h
        subst h
        exact hne hA
      simp [walkStop, hA, truthyO, StyleValue.truthy, hs, habs, leafResolve]

/-- C6 witness: the amended walk law evaluated on `svTwoTok` at the concrete
path `'x.y.z'`. -/
theorem C6_witness :
    nested svTwoTok ("x" ++ "." ++ "y" ++ "." ++ "z")
      = leafResolve svTwoTok (walkStop (some svTwoTok.variants) ["x", "y", "z"])
          "x" ("y" ++ "." ++ "z") :=
  (C6_nested_walk svTwoTok "x" "y" "z" rfl rfl rfl).1

/-- C7, counterexample: on `svTwoTok`, `'x.y'` resolves to `'a a'` and the
literal `'a'` to `'a'` — distinct and non-empty — yet the two orders of
`combine` agree (`'a a a'` both ways), refuting the claim's "differs
whenever both resolve to distinct non-empty strings". -/
theorem C7_counterexample :
    resolveEntry svTwoTok "x.y" = "a a"
      ∧ resolveEntry svTwoTok "a" = "a"
      ∧ ("a a" : String) ≠ "a"
      ∧ combine svTwoTok ["x.y", "a"] = "a a a"
      ∧ combine svTwoTok ["a", "x.y"] = "a a a" :=
  ⟨rfl, rfl, by decide, rfl, rfl⟩

/-- C7 (amended): `combine` never throws and equals the ordered,
space-joined concatenation of each entry's resolution (dot entries through
`nested`, others verbatim) with empty results dropped; order is significant:
the two orders differ whenever the two resolutions are distinct, non-empty
and single tokens (space-free). -/
theorem C7_combine (sv : SimpleVariants) :
    (∀ entries, combineE sv entries = .ok (combine sv entries))
    ∧ (∀ entries, combine sv entries
        = spaceJoin ((entries.map (resolveEntry sv)).filter (fun s => !(s == ""))))
    ∧ (∀ e1 e2, resolveEntry sv e1 ≠ resolveEntry sv e2 →
        resolveEntry sv e1 ≠ "" → resolveEntry sv e2 ≠ "" →
        ' ' ∉ (resolveEntry sv e1).data → ' ' ∉ (resolveEntry sv e2).data →
        combine sv [e1, e2] ≠ combine sv [e2, e1]) := by
  refine ⟨fun entries => combineE_ok sv entries, fun entries => rfl,
    fun e1 e2 hne h1 h2 hs1 hs2 => ?_⟩
  have hb1 : (resolveEntry sv e1 == "") = false := by simpa using h1
  have hb2 : (resolveEntry sv e2 == "") = false := by simpa using h2
  have hc1 : combine sv [e1, e2] = resolveEntry sv e1 ++ " " ++ resolveEntry sv e2 := by
    unfold combine
    simp [List.filter, hb1, hb2, spaceJoin]
  have hc2 : combine sv [e2, e1] = resolveEntry sv e2 ++ " " ++ resolveEntry sv e1 := by
    unfold combine
    simp [List.filter, hb1, hb2, spaceJoin]
  rw [hc1, hc2]
  exact space_join_order _ _ hs1 hs2 hne

/-- C7 witness: the order clause evaluated on `svDot`: combining the path
`'a.b'` (resolving to `'X'`) with the literal `'lit'` differs between the
two orders. -/
theorem C7_witness :
    combine svDot ["a.b", "lit"] ≠ combine svDot ["lit", "a.b"] :=
  (C7_combine svDot).2.2 "a.b" "lit" (by decide) (by decide) (by decide)
    (by decide) (by decide)

end SimpleVariants
